import Mathlib

/-!
Verification of the shared-memory MCP server core
(`shared_memory_mcp.py` and `utils/file_lock.py`).

The Python code is shallowly embedded: memory entries are records, the
storage file's parse outcome is an explicit sum type, machine-level JSON
parsing is abstracted into that sum type, and the filesystem touched by
the atomic writer is a finite map from paths to contents.  Strings are
Lean `String`s; Python `str.split()` word counting, `str.strip()`,
substring tests, `str.replace` and the `uuid.UUID` textual acceptance
check are re-implemented over `List Char` so that everything is
executable and kernel-reducible.  ASCII data is assumed where Python
would apply Unicode-aware case folding or whitespace classification.
-/

/-- Maximum response size in characters (`CHARACTER_LIMIT = 25000`). -/
def CHARACTER_LIMIT : Nat := 25000

/-- Maximum words per memory entry (`MAX_WORDS_PER_ENTRY = 200`). -/
def MAX_WORDS_PER_ENTRY : Nat := 200

/-- Maximum entries before rotation (`MAX_ENTRIES = 1000`). -/
def MAX_ENTRIES : Nat := 1000

/-- Storage schema version tag (`STORAGE_VERSION = "2.0"`). -/
def STORAGE_VERSION : String := "2.0"

/-- Priority levels for memory entries (`class Priority(str, Enum)`). -/
inductive Priority where
  | low
  | medium
  | high
deriving DecidableEq

/-- Value string of a priority, as stored on disk (`Priority.LOW.value` and so on). -/
def Priority.value : Priority → String
  | .low => "low"
  | .medium => "medium"
  | .high => "high"

/-- Sort order for memory entries (`class SortOrder(str, Enum)`). -/
inductive SortOrder where
  | chronological
  | reverse
  | priority
deriving DecidableEq

/-- One memory entry as stored in the entries array.  The stored objects are
JSON dictionaries; the code reads `priority` and `updated_at` through
`dict.get`, and legacy data may omit them, so those two fields are modelled
as `Option`.  `metadata` is opaque to the core and modelled as an
uninterpreted association list. -/
structure Entry where
  entry_id : String
  timestamp : String
  agent_name : String
  content : String
  word_count : Nat
  tags : List String
  priority : Option String
  metadata : List (String × String)
  updated_at : Option String
deriving DecidableEq

/-- ASCII whitespace as classified by Python (`str.split`, `str.strip`,
`int` parsing): space, tab, newline, carriage return, vertical tab, form feed. -/
def pyIsSpace (c : Char) : Bool :=
  c = ' ' || c = '\t' || c = '\n' || c = '\r' || c = '\x0b' || c = '\x0c'

/-- Word-counting automaton: counts the maximal runs of non-whitespace
characters, which is exactly `len(text.split())` in Python.  The boolean
records whether the scan is currently inside a word. -/
def countWordsAux : List Char → Bool → Nat
  | [], _ => 0
  | c :: cs, inWord =>
    if pyIsSpace c then countWordsAux cs false
    else (if inWord then 0 else 1) + countWordsAux cs true

/-- Number of words in a text string (`count_words`, line 309:
`len(text.split())`). -/
def count_words (text : String) : Nat := countWordsAux text.data false

/-- Python `str.strip()` on a character list: drop whitespace from both ends. -/
def pyStripList (l : List Char) : List Char :=
  ((l.dropWhile pyIsSpace).reverse.dropWhile pyIsSpace).reverse

/-- Python `str.strip()` on a string. -/
def pyStrip (s : String) : String := String.mk (pyStripList s.data)

/-- ASCII lowercase of a string; models Python `str.lower()` on ASCII data. -/
def lowerStr (s : String) : String := String.mk (s.data.map Char.toLower)

/-- Helper for the Python `in` substring test: does `pat` occur contiguously
inside the haystack? -/
def strContainsAux (pat : List Char) : List Char → Bool
  | [] => pat.isEmpty
  | c :: cs => pat.isPrefixOf (c :: cs) || strContainsAux pat cs

/-- Python `pat in hay` substring test. -/
def strContains (hay pat : String) : Bool := strContainsAux pat.data hay.data

/-- Fuel-driven worker for `removePat`; the fuel starts at the list length,
which bounds the number of steps. -/
def removePatAux (pat : List Char) : Nat → List Char → List Char
  | 0, l => l
  | _ + 1, [] => []
  | fuel + 1, c :: cs =>
    if pat.isPrefixOf (c :: cs) then removePatAux pat fuel ((c :: cs).drop pat.length)
    else c :: removePatAux pat fuel cs

/-- Python `s.replace(pat, "")` for a non-empty pattern: remove every
left-to-right non-overlapping occurrence of `pat`. -/
def removePat (pat : List Char) (l : List Char) : List Char := removePatAux pat l.length l

/-- Python `s.strip('{}')`: drop curly braces from both ends. -/
def stripBraces (l : List Char) : List Char :=
  ((l.dropWhile fun c => c = '\x7b' || c = '\x7d').reverse.dropWhile
    fun c => c = '\x7b' || c = '\x7d').reverse

/-- Hexadecimal digit as accepted by Python `int(s, 16)` (ASCII). -/
def isHexDigitPy (c : Char) : Bool :=
  c.isDigit || ('a' ≤ c && c ≤ 'f') || ('A' ≤ c && c ≤ 'F')

/-- After at least one hex digit has been read: Python `int(s, 16)` accepts
further digits, single underscores between digits, and trailing whitespace. -/
def intHexTail : List Char → Bool
  | [] => true
  | '_' :: cs =>
    match cs with
    | c :: cs2 => isHexDigitPy c && intHexTail cs2
    | [] => false
  | c :: cs => if isHexDigitPy c then intHexTail cs else (c :: cs).all pyIsSpace

/-- At least one hex digit followed by a valid tail. -/
def intHexBody : List Char → Bool
  | [] => false
  | c :: cs => isHexDigitPy c && intHexTail cs

/-- Optional `0x` / `0X` prefix of a base-16 `int` literal, possibly followed
by one underscore. -/
def dropHexPrefix (l : List Char) : List Char :=
  match l with
  | '0' :: c :: cs =>
    if c = 'x' || c = 'X' then
      match cs with
      | '_' :: cs2 => cs2
      | _ => cs
    else '0' :: c :: cs
  | _ => l

/-- Optional sign of an `int` literal. -/
def dropSign (l : List Char) : List Char :=
  match l with
  | '+' :: cs => cs
  | '-' :: cs => cs
  | _ => l

/-- Does Python `int(s, 16)` accept this character list?  Grammar: optional
whitespace, optional sign, optional `0x` prefix, hex digits separated by
single underscores, optional trailing whitespace. -/
def pyIntHex16Ok (l : List Char) : Bool :=
  intHexBody (dropHexPrefix (dropSign (l.dropWhile pyIsSpace)))

/-- `validate_entry_id` (lines 319-325): `uuid.UUID(entry_id)` succeeds iff
after removing every `urn:` and `uuid:` substring, stripping curly braces
from the ends and removing all dashes, exactly 32 characters remain and they
parse as a base-16 integer. -/
def validate_entry_id (s : String) : Bool :=
  let h1 := removePat "urn:".data s.data
  let h2 := removePat "uuid:".data h1
  let h3 := (stripBraces h2).filter (fun c => c != '-')
  h3.length == 32 && pyIntHex16Ok h3

/-- `find_entry_by_id` (lines 328-333): first entry whose `entry_id` equals
the given id, if any. -/
def find_entry_by_id : List Entry → String → Option Entry
  | [], _ => none
  | e :: rest, eid => if e.entry_id == eid then some e else find_entry_by_id rest eid

/-- Capacity rotation applied by `save_memories` (lines 181-188): when more
than `MAX_ENTRIES` entries are to be saved, keep only the trailing
`MAX_ENTRIES` (`memories[-MAX_ENTRIES:]`). -/
def save_entries (memories : List Entry) : List Entry :=
  if memories.length > MAX_ENTRIES then memories.drop (memories.length - MAX_ENTRIES)
  else memories

/-- Storage container written by `save_memories` (lines 190-217), with the
original `created_at` preserved when the existing file provides one. -/
structure StorageFormat where
  version : String
  entries : List Entry
  created_at : String
  updated_at : String
deriving DecidableEq

/-- `save_memories` (lines 170-226) as a function from the entry list, the
`created_at` recovered from the existing file (if any) and the current
timestamp to the container that is atomically written. -/
def save_memories (memories : List Entry) (existing_created_at : Option String)
    (now : String) : StorageFormat :=
  { version := STORAGE_VERSION
    entries := save_entries memories
    created_at := existing_created_at.getD now
    updated_at := now }

/-- Parse outcome of a JSON document holding memory data: a bare list of
entries (v1 format), a dictionary whose `entries` key may be present or
absent (v2 format), or some other JSON value. -/
inductive JsonValue where
  | list (entries : List Entry)
  | dict (entriesField : Option (List Entry))
  | other
deriving DecidableEq

/-- Raw byte content of the primary storage file, abstracted to its parse
outcome: empty after stripping whitespace, successfully parsed JSON, or
malformed data on which `json.loads` raises. -/
inductive RawContent where
  | empty
  | parsed (v : JsonValue)
  | malformed
deriving DecidableEq

/-- Entries recoverable from one backup snapshot, per the loop body of
`recover_from_backup` (lines 283-297): `none` models a snapshot that fails
to open or parse; a parsed list is returned directly; a parsed dictionary is
used only when it has an `entries` key; anything else is skipped. -/
def snapshot_entries : Option JsonValue → Option (List Entry)
  | some (.list es) => some es
  | some (.dict (some es)) => some es
  | _ => none

/-- The `for backup_file in reversed(backups)` loop of `recover_from_backup`:
return the first snapshot (in the traversal order) that yields entries. -/
def recoverScan : List (Option JsonValue) → Option (List Entry)
  | [] => none
  | b :: rest =>
    match snapshot_entries b with
    | some es => some es
    | none => recoverScan rest

/-- `recover_from_backup` (lines 268-304).  The argument lists the retained
snapshots oldest first (the sorted order of the timestamp-named files); the
code scans them newest to oldest. -/
def recover_from_backup (backups : List (Option JsonValue)) : Option (List Entry) :=
  recoverScan backups.reverse

/-- Specification-side description of recovery: the entries of the newest
(latest in retention order) snapshot that yields entries, folding left so
that later snapshots override earlier ones. -/
def newest_valid_snapshot (backups : List (Option JsonValue)) : Option (List Entry) :=
  backups.foldl
    (fun acc b =>
      match snapshot_entries b with
      | some es => some es
      | none => acc)
    none

/-- `load_memories` (lines 115-167) as a function of the primary file's parse
outcome and the retained backup snapshots (oldest first): empty content gives
an empty list; a bare JSON list is taken as the entries (v1 migration); a
dictionary contributes `data.get("entries", [])`; any other parsed value
gives an empty list; malformed content triggers backup recovery, falling back
to an empty list when recovery fails. -/
def load_memories (content : RawContent) (backups : List (Option JsonValue)) : List Entry :=
  match content with
  | .empty => []
  | .parsed (.list es) => es
  | .parsed (.dict entriesField) => entriesField.getD []
  | .parsed .other => []
  | .malformed =>
    match recover_from_backup backups with
    | some es => es
    | none => []

/-- `filter_memories` (lines 336-382): AND of agent, tags, priority and date
criteria, honouring Python truthiness (`None`, the empty string and the
empty list all skip their criterion). -/
def filter_memories (memories : List Entry) (agent_filter : Option String)
    (tags : Option (List String)) (priority : Option Priority)
    (date_from date_to : Option String) : List Entry :=
  let f1 :=
    match agent_filter with
    | some a => if a ≠ "" then memories.filter (fun m => m.agent_name == a) else memories
    | none => memories
  let f2 :=
    match tags with
    | some ts => if ts ≠ [] then f1.filter (fun m => ts.all (fun t => m.tags.contains t)) else f1
    | none => f1
  let f3 :=
    match priority with
    | some p => f2.filter (fun m => m.priority == some p.value)
    | none => f2
  let f4 :=
    match date_from with
    | some d => if d ≠ "" then f3.filter (fun m => d ≤ m.timestamp) else f3
    | none => f3
  match date_to with
  | some d => if d ≠ "" then f4.filter (fun m => m.timestamp ≤ d) else f4
  | none => f4

/-- Sort key used by the priority order (line 393-396):
`priority_order.get(m.get("priority", "medium"), 1)` with
`priority_order = {"high": 0, "medium": 1, "low": 2}`. -/
def entry_rank (m : Entry) : Nat :=
  match m.priority with
  | some s => if s = "high" then 0 else if s = "medium" then 1 else if s = "low" then 2 else 1
  | none => 1

/-- Stable insertion of an entry into a list ordered by `entry_rank`;
together with `rank_sort` this implements the stable sort guaranteed by
Python's `sorted`. -/
def rank_insert (x : Entry) : List Entry → List Entry
  | [] => [x]
  | y :: ys => if entry_rank x ≤ entry_rank y then x :: y :: ys else y :: rank_insert x ys

/-- Stable sort of entries by `entry_rank` (Python `sorted(memories, key=...)`
is specified to be stable, and stable sorting by a key determines the output
list uniquely, so this insertion sort computes exactly what the code does). -/
def rank_sort : List Entry → List Entry
  | [] => []
  | x :: xs => rank_insert x (rank_sort xs)

/-- `sort_memories` (lines 385-399): reverse order reverses the list,
priority order stably sorts by rank, chronological order is the identity. -/
def sort_memories (memories : List Entry) (sort_order : SortOrder) : List Entry :=
  match sort_order with
  | .reverse => memories.reverse
  | .priority => rank_sort memories
  | .chronological => memories

/-- One-entry match test of `search_memories`, folded through the same
case-handling as the loop body: the (possibly lowered) pattern is looked for
in the content, then the agent name, then the tags. -/
def entry_matches (e : Entry) (pat : String) (case_sensitive : Bool) : Bool :=
  strContains (if case_sensitive then e.content else lowerStr e.content) pat ||
  strContains (if case_sensitive then e.agent_name else lowerStr e.agent_name) pat ||
  (if case_sensitive then e.tags else e.tags.map lowerStr).any (fun t => strContains t pat)

/-- The `for entry in memories` loop of `search_memories` (lines 426-454)
with its three `continue`-guarded probes, in source order. -/
def searchLoop (pat : String) (cs : Bool) : List Entry → List Entry
  | [] => []
  | e :: rest =>
    if strContains (if cs then e.content else lowerStr e.content) pat then
      e :: searchLoop pat cs rest
    else if strContains (if cs then e.agent_name else lowerStr e.agent_name) pat then
      e :: searchLoop pat cs rest
    else if (if cs then e.tags else e.tags.map lowerStr).any (fun t => strContains t pat) then
      e :: searchLoop pat cs rest
    else searchLoop pat cs rest

/-- `search_memories` (lines 402-454): an empty query returns all entries;
otherwise the query is case-folded unless the search is case-sensitive and
the entries are scanned in order. -/
def search_memories (memories : List Entry) (query : String) (case_sensitive : Bool) :
    List Entry :=
  if query = "" then memories
  else searchLoop (if case_sensitive then query else lowerStr query) case_sensitive memories

/-- Query-level match predicate: `entry_matches` applied to the pattern the
code actually searches for (the query, case-folded when insensitive). -/
def entry_matches_query (e : Entry) (query : String) (case_sensitive : Bool) : Bool :=
  entry_matches e (if case_sensitive then query else lowerStr query) case_sensitive

/-- Input model for adding a memory entry (`AddMemoryInput`, lines 500-556). -/
structure AddMemoryInput where
  agent_name : String
  content : String
  tags : List String
  priority : Priority
  metadata : List (String × String)

/-- Validation failures of the pydantic input models, by violated constraint. -/
inductive AddError where
  | agentLength
  | contentLength
  | wordCount
  | tagCount
deriving DecidableEq

/-- Tag normalization shared by the `AddMemoryInput` tags validator
(line 556) and `update_memory` (line 893):
`[tag.strip().lower() for tag in v if tag.strip()]`. -/
def normalize_tags (v : List String) : List String :=
  (v.filter (fun t => pyStrip t ≠ "")).map (fun t => lowerStr (pyStrip t))

/-- Pydantic validation of `AddMemoryInput`: every `str` field is stripped
(`str_strip_whitespace=True`), `agent_name` must have 1 to 100 characters,
`content` must be non-empty (`min_length=1`) and hold at most
`MAX_WORDS_PER_ENTRY` words (`validate_word_count`, lines 537-547), and at
most 10 tags are allowed, normalized by `validate_tags`. -/
def validate_add_input (p : AddMemoryInput) : Except AddError AddMemoryInput :=
  let agent := pyStrip p.agent_name
  if agent.length < 1 ∨ agent.length > 100 then .error .agentLength
  else
    let content := pyStrip p.content
    if content.length < 1 then .error .contentLength
    else if count_words content > MAX_WORDS_PER_ENTRY then .error .wordCount
    else if p.tags.length > 10 then .error .tagCount
    else .ok { agent_name := agent, content := content, tags := normalize_tags p.tags,
               priority := p.priority, metadata := p.metadata }

/-- Entry built by `add_memory` (lines 599-609) from a validated input, the
current timestamp and a fresh entry id. -/
def make_entry (p : AddMemoryInput) (now eid : String) : Entry :=
  { entry_id := eid
    timestamp := now
    agent_name := p.agent_name
    content := p.content
    word_count := count_words p.content
    tags := p.tags
    priority := some p.priority.value
    metadata := p.metadata
    updated_at := none }

/-- `add_memory` (lines 569-649): validate the input, append the new entry
and persist through `save_memories` (which applies rotation).  A validation
failure leaves the store untouched and reports the error. -/
def add_memory (memories : List Entry) (p : AddMemoryInput) (now eid : String) :
    Except AddError (List Entry) :=
  match validate_add_input p with
  | .error e => .error e
  | .ok v => .ok (save_entries (memories ++ [make_entry v now eid]))

/-- Input model for updating a memory entry (`UpdateMemoryInput`,
lines 786-832); absent optional fields leave the entry unchanged. -/
structure UpdateMemoryInput where
  entry_id : String
  content : Option String
  tags : Option (List String)
  priority : Option Priority
  metadata : Option (List (String × String))

/-- Failure modes of `update_memory`. -/
inductive UpdateError where
  | validation
  | invalidId
  | notFound
deriving DecidableEq

/-- Pydantic validation of `UpdateMemoryInput`: when `content` is provided it
is stripped, must be non-empty and must hold at most `MAX_WORDS_PER_ENTRY`
words (`validate_word_count`, lines 820-832). -/
def validate_update_input (p : UpdateMemoryInput) : Except UpdateError UpdateMemoryInput :=
  match p.content with
  | none => .ok p
  | some c =>
    let c := pyStrip c
    if c.length < 1 then .error .validation
    else if count_words c > MAX_WORDS_PER_ENTRY then .error .validation
    else .ok { p with content := some c }

/-- Field updates of `update_memory` (lines 884-905), applied to the found
entry: each provided field replaces the stored one (content also recomputes
`word_count`, tags are normalized), and `updated_at` is set to now. -/
def apply_update (e : Entry) (p : UpdateMemoryInput) (now : String) : Entry :=
  let e1 :=
    match p.content with
    | some c => { e with content := c, word_count := count_words c }
    | none => e
  let e2 :=
    match p.tags with
    | some ts => { e1 with tags := normalize_tags ts }
    | none => e1
  let e3 :=
    match p.priority with
    | some pr => { e2 with priority := some pr.value }
    | none => e2
  let e4 :=
    match p.metadata with
    | some md => { e3 with metadata := md }
    | none => e3
  { e4 with updated_at := some now }

/-- In-place mutation of the first entry carrying the id: Python's
`find_entry_by_id` returns a reference into the list and the update mutates
it, so the list is the original one with that position replaced. -/
def update_first : List Entry → String → UpdateMemoryInput → String → Option (List Entry)
  | [], _, _, _ => none
  | e :: rest, eid, p, now =>
    if e.entry_id == eid then some (apply_update e p now :: rest)
    else (update_first rest eid p now).map (fun ms => e :: ms)

/-- Names of the fields an update changed (`updated_fields`, lines 885-902). -/
def updated_fields (p : UpdateMemoryInput) : List String :=
  (if p.content.isSome then ["content"] else []) ++
  (if p.tags.isSome then ["tags"] else []) ++
  (if p.priority.isSome then ["priority"] else []) ++
  (if p.metadata.isSome then ["metadata"] else [])

/-- `update_memory` (lines 845-937): validate the input, reject ids that are
not UUID-formatted, report `notFound` for absent ids, otherwise apply the
field updates to the found entry and persist through `save_memories`. -/
def update_memory (memories : List Entry) (p : UpdateMemoryInput) (now : String) :
    Except UpdateError (List Entry × List String) :=
  match validate_update_input p with
  | .error err => .error err
  | .ok q =>
    if validate_entry_id q.entry_id = false then .error .invalidId
    else
      match update_first memories q.entry_id q now with
      | none => .error .notFound
      | some ms => .ok (save_entries ms, updated_fields q)

/-- Failure modes of `delete_memory` and `get_memory`. -/
inductive LookupError where
  | invalidId
  | notFound
deriving DecidableEq

/-- `delete_memory` (lines 964-1022): reject ids that are not UUID-formatted,
report `notFound` for absent ids, otherwise drop every entry carrying the id
(`[m for m in memories if m.get("entry_id") != params.entry_id]`) and persist
through `save_memories`; the deleted entry is reported back. -/
def delete_memory (memories : List Entry) (eid : String) :
    Except LookupError (List Entry × Entry) :=
  if validate_entry_id eid = false then .error .invalidId
  else
    match find_entry_by_id memories eid with
    | none => .error .notFound
    | some e => .ok (save_entries (memories.filter (fun m => m.entry_id != eid)), e)

/-- `get_memory` (lines 1054-1104): reject ids that are not UUID-formatted,
then return the entry found by `find_entry_by_id` or `notFound`. -/
def get_memory (memories : List Entry) (eid : String) : Except LookupError Entry :=
  if validate_entry_id eid = false then .error .invalidId
  else
    match find_entry_by_id memories eid with
    | none => .error .notFound
    | some e => .ok e

/-- Python `"\n".join(lines)`. -/
def join_nl : List String → String
  | [] => ""
  | [l] => l
  | l :: ls => l ++ "\n" ++ join_nl ls

/-- Python `", ".join(tags)`. -/
def join_comma : List String → String
  | [] => ""
  | [t] => t
  | t :: ts => t ++ ", " ++ join_comma ts

/-- Markdown lines emitted for one entry by `format_memories_as_markdown`
(lines 465-486), including the conditional `Updated` and `Tags` lines. -/
def entry_md_lines (i : Nat) (e : Entry) : List String :=
  ["## Entry " ++ toString i ++ ": " ++ e.agent_name,
   "**ID**: `" ++ e.entry_id ++ "`",
   "**Time**: " ++ e.timestamp] ++
  (match e.updated_at with
   | some u => ["**Updated**: " ++ u]
   | none => []) ++
  ["**Words**: " ++ toString e.word_count ++ "/" ++ toString MAX_WORDS_PER_ENTRY,
   "**Priority**: " ++ (e.priority.getD "medium")] ++
  (if e.tags.isEmpty then [] else ["**Tags**: " ++ join_comma e.tags]) ++
  ["\n" ++ e.content ++ "\n", "---\n"]

/-- Per-entry markdown lines for the whole list, numbering entries from one
(`enumerate(memories, 1)`). -/
def entries_md_lines : Nat → List Entry → List String
  | _, [] => []
  | i, e :: rest => entry_md_lines i e ++ entries_md_lines (i + 1) rest

/-- `format_memories_as_markdown` (lines 457-487). -/
def format_memories_as_markdown (memories : List Entry) : String :=
  if memories.isEmpty then "No memory entries found."
  else
    join_nl (["# Shared Memory\n", "Total entries: " ++ toString memories.length ++ "\n"] ++
      entries_md_lines 1 memories)

/-- Input model for `read_memory` (`ReadMemoryInput`, lines 652-691), with
the renderer passed separately (the code dispatches on `response_format`
between the markdown and JSON renderers; the truncation logic treats the
renderer as a black box). -/
structure ReadMemoryInput where
  limit : Option Nat
  agent_filter : Option String
  tags : Option (List String)
  priority : Option Priority
  sort_order : SortOrder

/-- Python slice `memories[-k:]`: the trailing `k` elements, except that
`k = 0` denotes the whole list. -/
def py_slice_last (k : Nat) (l : List Entry) : List Entry :=
  if k = 0 then l else l.drop (l.length - k)

/-- Truncation notice appended by `read_memory` (lines 760-763), stating the
halved count and the pre-filter total. -/
def truncation_notice (shown total : Nat) : String :=
  "\n\n⚠️ **Response Truncated**: Showing " ++ toString shown ++ " of " ++
    toString total ++ " entries. Use \x27limit\x27 parameter to control results."

/-- Filter, sort and limit pipeline of `read_memory` (lines 726-741); the
limit keeps the most recent entries under chronological order and the
leading entries otherwise, and Python truthiness skips a zero limit. -/
def process_read_entries (store : List Entry) (p : ReadMemoryInput) : List Entry :=
  let ms := filter_memories store p.agent_filter p.tags p.priority none none
  let ms := sort_memories ms p.sort_order
  match p.limit with
  | some lim =>
    if lim ≠ 0 ∧ ms.length > lim then
      if p.sort_order = .chronological then ms.drop (ms.length - lim) else ms.take lim
    else ms
  | none => ms

/-- Result of `read_memory`: the response text, plus the pair of counts
(shown, total) embedded in the truncation notice when truncation fired. -/
structure ReadResult where
  output : String
  notice : Option (Nat × Nat)
deriving DecidableEq

/-- `read_memory` (lines 704-776): load, filter, sort, limit and render; when
the rendered text exceeds `CHARACTER_LIMIT`, halve the entry count, keep the
trailing half, render once more and append the truncation notice quoting
`truncated_count` and the pre-filter `total_count`. -/
def read_memory (fmt : List Entry → String) (store : List Entry) (p : ReadMemoryInput) :
    ReadResult :=
  let total_count := store.length
  let ms := process_read_entries store p
  let result := fmt ms
  if result.length > CHARACTER_LIMIT then
    let truncated_count := ms.length / 2
    let ms2 := py_slice_last truncated_count ms
    { output := fmt ms2 ++ truncation_notice truncated_count total_count
      notice := some (truncated_count, total_count) }
  else { output := result, notice := none }

/-- Filesystem paths for the atomic writer, split into directory and file
name so that the temporary sibling lives in the same directory. -/
structure FPath where
  dir : String
  name : String
deriving DecidableEq

/-- Temporary sibling used by `atomic_write` (line 167):
`file_path.parent / f".{file_path.name}.tmp"`. -/
def tmp_path (p : FPath) : FPath := { dir := p.dir, name := "." ++ p.name ++ ".tmp" }

/-- Filesystem contents: a map from paths to file contents. -/
structure FS where
  files : FPath → Option String

/-- Create or overwrite a file. -/
def FS.set (fs : FS) (p : FPath) (v : String) : FS :=
  ⟨fun q => if q = p then some v else fs.files q⟩

/-- Remove a file (no-op when absent). -/
def FS.remove (fs : FS) (p : FPath) : FS :=
  ⟨fun q => if q = p then none else fs.files q⟩

/-- Failure points of `atomic_write` (lines 142-187): before the temporary
file is opened, during the write (leaving a written prefix in the temporary
file), during the flush/fsync, or at the final rename. -/
inductive AWFail where
  | beforeOpen
  | duringWrite (written : String)
  | duringFsync
  | atRename
deriving DecidableEq

/-- Exception handler of `atomic_write` (lines 183-187): remove the
temporary file when it exists, then re-raise. -/
def atomic_write_cleanup (fs : FS) (target : FPath) : FS :=
  if (fs.files (tmp_path target)).isSome then fs.remove (tmp_path target) else fs

/-- `atomic_write` (lines 142-187) over the filesystem model, with an
injected failure point (`none` is the fault-free run): open the temporary
sibling for writing (truncating it), write the content, fsync, then
atomically replace the target with the temporary file.  Any exception runs
the cleanup handler. -/
def atomic_write_fs (fs : FS) (target : FPath) (content : String) :
    Option AWFail → FS
  | none =>
    (((fs.set (tmp_path target) "").set (tmp_path target) content).set target content).remove
      (tmp_path target)
  | some .beforeOpen => atomic_write_cleanup fs target
  | some (.duringWrite written) =>
    atomic_write_cleanup ((fs.set (tmp_path target) "").set (tmp_path target) written) target
  | some .duringFsync =>
    atomic_write_cleanup ((fs.set (tmp_path target) "").set (tmp_path target) content) target
  | some .atRename =>
    atomic_write_cleanup ((fs.set (tmp_path target) "").set (tmp_path target) content) target

/-- Sample entry with low priority (test vector of the sort property). -/
def exLowE : Entry := ⟨"e1", "t1", "a1", "c1", 1, [], some "low", [], none⟩

/-- Sample entry with high priority. -/
def exHighE : Entry := ⟨"e2", "t2", "a2", "c2", 1, [], some "high", [], none⟩

/-- Sample entry with medium priority. -/
def exMedE : Entry := ⟨"e3", "t3", "a3", "c3", 1, [], some "medium", [], none⟩

/-- Sample entry whose priority string is not one of the three levels. -/
def exBadPrioE : Entry := ⟨"e5", "t5", "a5", "c5", 1, [], some "urgent", [], none⟩

/-- Sample entry with no priority field at all. -/
def exNoPrioE : Entry := ⟨"e6", "t6", "a6", "c6", 1, [], none, [], none⟩

/-- Sample entry for the search test vectors of the specification. -/
def exSearchE : Entry := ⟨"e4", "t4", "agent", "This is a TEST message", 5, [], some "medium", [], none⟩

/-- Sample entry used to exercise capacity rotation. -/
def exRotEntry : Entry := ⟨"e0", "t0", "a0", "c0", 1, [], some "medium", [], none⟩

/-- Canonically formatted UUID string (per the data model, entry ids are the
canonical textual form of a 128-bit identifier). -/
def uuidA : String := "123e4567-e89b-12d3-a456-426614174000"

/-- Second canonically formatted UUID string. -/
def uuidB : String := "00000000-0000-4000-8000-000000000001"

/-- Sample entry stored under `uuidA`. -/
def exDelE1 : Entry := ⟨uuidA, "t1", "alice", "one two", 2, ["x"], some "medium", [], none⟩

/-- Sample entry stored under `uuidB`. -/
def exDelE2 : Entry := ⟨uuidB, "t2", "bob", "three", 1, [], some "low", [], none⟩

/-- Add request whose content is empty: its word count is 0 but pydantic's
`min_length=1` constraint on `content` rejects it. -/
def exAddEmpty : AddMemoryInput := ⟨"claude-alpha", "", [], .medium, []⟩

/-- Well-formed add request used as a witness input. -/
def exAddOk : AddMemoryInput := ⟨"claude-alpha", "hello shared world", [], .high, []⟩

/-- Backup snapshot list in which no snapshot yields entries. -/
def exBadBackups : List (Option JsonValue) := [none, some .other, some (.dict none)]

/-- Backup snapshot list whose newest usable snapshot holds `exMedE`. -/
def exGoodBackups : List (Option JsonValue) :=
  [some (.list [exLowE]), some (.list [exMedE]), none]

/-- Empty filesystem for the atomic-writer witness. -/
def exFS : FS := ⟨fun _ => none⟩

/-- Target path for the atomic-writer witness. -/
def exTarget : FPath := ⟨"home", "memory.json"⟩

/-- A 13000-character content string, long enough that two entries overflow
the response character budget. -/
def bigA : String := String.mk (List.replicate 13000 'a')

/-- First oversized entry by agent A. -/
def exC4E1 : Entry := ⟨"i1", "t1", "A", bigA, 1, [], some "medium", [], none⟩

/-- Second oversized entry by agent A. -/
def exC4E2 : Entry := ⟨"i2", "t2", "A", bigA, 1, [], some "medium", [], none⟩

/-- Small entry by agent B (filtered out by the agent filter). -/
def exC4E3 : Entry := ⟨"i3", "t3", "B", "x", 1, [], some "medium", [], none⟩

/-- Three-entry store: two oversized entries by A, one small entry by B. -/
def exC4Store : List Entry := [exC4E1, exC4E2, exC4E3]

/-- Read request filtering on agent A, chronological order, no limit. -/
def exC4Params : ReadMemoryInput := ⟨none, some "A", none, none, .chronological⟩

/-- Inserting with `rank_insert` permutes consing. -/
theorem rank_insert_perm (x : Entry) (l : List Entry) : (rank_insert x l).Perm (x :: l) := by
  induction l with
  | nil => exact List.Perm.refl _
  | cons y ys ih =>
    by_cases h : entry_rank x ≤ entry_rank y
    · simp [rank_insert, h]
    · simp only [rank_insert, if_neg h]
      exact (ih.cons y).trans (List.Perm.swap x y ys)

/-- The stable rank sort is a permutation of its input. -/
theorem rank_sort_perm (l : List Entry) : (rank_sort l).Perm l := by
  induction l with
  | nil => exact List.Perm.refl _
  | cons x xs ih => exact (rank_insert_perm x (rank_sort xs)).trans (ih.cons x)

/-- Entries of a fixed rank are untouched, in order, by `rank_insert`. -/
theorem rank_insert_filter (x : Entry) (l : List Entry) (p : Nat) :
    (rank_insert x l).filter (fun e => entry_rank e == p) =
      (x :: l).filter (fun e => entry_rank e == p) := by
  induction l with
  | nil => rfl
  | cons y ys ih =>
    by_cases h : entry_rank x ≤ entry_rank y
    · simp [rank_insert, h]
    · have hlt : entry_rank y < entry_rank x := Nat.lt_of_not_le h
      by_cases hx : entry_rank x = p
      · have hy : ¬ (entry_rank y = p) := by omega
        simp only [rank_insert, if_neg h, List.filter_cons, beq_iff_eq] at ih ⊢
        simp [ih, hx, hy]
      · by_cases hy : entry_rank y = p
        · simp only [rank_insert, if_neg h, List.filter_cons, beq_iff_eq] at ih ⊢
          simp [ih, hx, hy]
        · simp only [rank_insert, if_neg h, List.filter_cons, beq_iff_eq] at ih ⊢
          simp [ih, hx, hy]

/-- Stability of the rank sort: each rank class keeps its original order. -/
theorem rank_sort_filter (l : List Entry) (p : Nat) :
    (rank_sort l).filter (fun e => entry_rank e == p) =
      l.filter (fun e => entry_rank e == p) := by
  induction l with
  | nil => rfl
  | cons x xs ih =>
    simp only [rank_sort]
    rw [rank_insert_filter]
    simp only [List.filter_cons]
    rw [ih]

/-- Inserting into a rank-ordered list keeps it rank-ordered. -/
theorem rank_insert_pairwise (x : Entry) (l : List Entry)
    (h : List.Pairwise (fun a b => entry_rank a ≤ entry_rank b) l) :
    List.Pairwise (fun a b => entry_rank a ≤ entry_rank b) (rank_insert x l) := by
  induction l with
  | nil => simp [rank_insert]
  | cons y ys ih =>
    cases h with
    | cons h1 h2 =>
      by_cases hle : entry_rank x ≤ entry_rank y
      · simp only [rank_insert, if_pos hle]
        refine List.Pairwise.cons ?_ (List.Pairwise.cons h1 h2)
        intro b hb
        rcases List.mem_cons.mp hb with rfl | hb2
        · exact hle
        · exact Nat.le_trans hle (h1 _ hb2)
      · have hyx : entry_rank y ≤ entry_rank x := Nat.le_of_lt (Nat.lt_of_not_le hle)
        simp only [rank_insert, if_neg hle]
        refine List.Pairwise.cons ?_ (ih h2)
        intro b hb
        rcases List.mem_cons.mp ((rank_insert_perm x ys).mem_iff.mp hb) with rfl | hb2
        · exact hyx
        · exact h1 _ hb2

/-- The rank sort orders entries by non-decreasing rank. -/
theorem rank_sort_pairwise (l : List Entry) :
    List.Pairwise (fun a b => entry_rank a ≤ entry_rank b) (rank_sort l) := by
  induction l with
  | nil => exact List.Pairwise.nil
  | cons x xs ih => exact rank_insert_pairwise x (rank_sort xs) ih

/-- C2: saving more than `MAX_ENTRIES` entries persists exactly the trailing
`MAX_ENTRIES` of them (the most recent ones, a suffix of the input in order,
the oldest surplus dropped); saving at most `MAX_ENTRIES` persists the input
unchanged. -/
theorem save_memories_rotation_spec (memories : List Entry)
    (existing_created_at : Option String) (now : String) :
    (memories.length > MAX_ENTRIES →
      (save_memories memories existing_created_at now).entries =
        memories.drop (memories.length - MAX_ENTRIES) ∧
      (save_memories memories existing_created_at now).entries.length = MAX_ENTRIES ∧
      (save_memories memories existing_created_at now).entries.IsSuffix memories) ∧
    (memories.length ≤ MAX_ENTRIES →
      (save_memories memories existing_created_at now).entries = memories) := by
  constructor
  · intro h
    have he : (save_memories memories existing_created_at now).entries =
        memories.drop (memories.length - MAX_ENTRIES) := by
      simp [save_memories, save_entries, if_pos h]
    refine ⟨he, ?_, ?_⟩
    · rw [he, List.length_drop]
      omega
    · rw [he]
      exact List.drop_suffix _ _
  · intro h
    have : ¬ (memories.length > MAX_ENTRIES) := by omega
    simp [save_memories, save_entries, this]

/-- Witness for C2 at a concrete 1001-entry list. -/
theorem save_memories_rotation_witness :
    (List.replicate 1001 exRotEntry).length > MAX_ENTRIES ∧
    (save_memories (List.replicate 1001 exRotEntry) none "t").entries =
      (List.replicate 1001 exRotEntry).drop 1 := by
  have h : (List.replicate 1001 exRotEntry).length > MAX_ENTRIES := by
    rw [List.length_replicate]
    norm_num [MAX_ENTRIES]
  refine ⟨h, ?_⟩
  have hd := ((save_memories_rotation_spec (List.replicate 1001 exRotEntry) none "t").1 h).1
  rw [hd, List.length_replicate]
  norm_num [MAX_ENTRIES]

/-- C6: chronological sort is the identity, reverse sort is the exact
reversal, and priority sort is a stable sort by rank high(0) < medium(1) <
low(2): it permutes the input, orders it by non-decreasing rank, preserves
the relative order inside every rank class, and sends priorities
[low, high, medium] to [high, medium, low]. -/
theorem sort_memories_spec :
    (∀ ms : List Entry, sort_memories ms .chronological = ms) ∧
    (∀ ms : List Entry, sort_memories ms .reverse = ms.reverse) ∧
    (∀ ms : List Entry, (sort_memories ms .priority).Perm ms) ∧
    (∀ ms : List Entry,
      List.Pairwise (fun a b => entry_rank a ≤ entry_rank b) (sort_memories ms .priority)) ∧
    (∀ (ms : List Entry) (p : Nat),
      (sort_memories ms .priority).filter (fun e => entry_rank e == p) =
        ms.filter (fun e => entry_rank e == p)) ∧
    sort_memories [exLowE, exHighE, exMedE] .priority = [exHighE, exMedE, exLowE] := by
  refine ⟨fun ms => rfl, fun ms => rfl, fun ms => rank_sort_perm ms,
    fun ms => rank_sort_pairwise ms, fun ms p => rank_sort_filter ms p, ?_⟩
  decide

/-- C10: an entry whose priority field is absent, or holds a string other
than low, medium or high, is given the medium rank 1 by the priority sort
key, and the sort keeps the relative order inside the rank-1 class. -/
theorem entry_rank_default_spec :
    (∀ e : Entry, e.priority = none → entry_rank e = 1) ∧
    (∀ (e : Entry) (s : String), e.priority = some s →
      s ≠ "low" → s ≠ "medium" → s ≠ "high" → entry_rank e = 1) ∧
    (∀ ms : List Entry,
      (sort_memories ms .priority).filter (fun e => entry_rank e == 1) =
        ms.filter (fun e => entry_rank e == 1)) := by
  refine ⟨?_, ?_, fun ms => rank_sort_filter ms 1⟩
  · intro e h
    simp [entry_rank, h]
  · intro e s h hl hm hh
    simp [entry_rank, h, hl, hm, hh]

/-- Witness for C10: a missing priority and the unknown priority string
"urgent" both rank as medium. -/
theorem entry_rank_default_witness :
    entry_rank exNoPrioE = 1 ∧ entry_rank exBadPrioE = 1 ∧
    (sort_memories [exMedE, exBadPrioE] .priority).filter
        (fun e => entry_rank e == 1) =
      [exMedE, exBadPrioE].filter (fun e => entry_rank e == 1) := by
  refine ⟨entry_rank_default_spec.1 exNoPrioE rfl,
    entry_rank_default_spec.2.1 exBadPrioE "urgent" rfl (by decide) (by decide) (by decide),
    entry_rank_default_spec.2.2 [exMedE, exBadPrioE]⟩

/-- The search loop keeps exactly the entries matching the pattern, in their
original order. -/
theorem searchLoop_eq_filter (pat : String) (cs : Bool) (ms : List Entry) :
    searchLoop pat cs ms = ms.filter (fun e => entry_matches e pat cs) := by
  induction ms with
  | nil => rfl
  | cons e rest ih =>
    by_cases h1 : strContains (if cs then e.content else lowerStr e.content) pat
    · simp [searchLoop, entry_matches, List.filter_cons, h1, ih]
    · by_cases h2 : strContains (if cs then e.agent_name else lowerStr e.agent_name) pat
      · simp [searchLoop, entry_matches, List.filter_cons, h1, h2, ih]
      · by_cases h3 :
            ((if cs then e.tags else e.tags.map lowerStr).any fun t => strContains t pat)
        · simp [searchLoop, entry_matches, List.filter_cons, h1, h2, h3, ih]
        · simp [searchLoop, entry_matches, List.filter_cons, h1, h2, h3, ih]

/-- The empty pattern is a substring of every string. -/
theorem strContains_empty (s : String) : strContains s "" = true := by
  show strContainsAux [] s.data = true
  cases s.data with
  | nil => rfl
  | cons c cs => simp [strContainsAux, List.isPrefixOf]

/-- C7: searching with an empty query returns all entries unchanged; in
general the result is exactly the subsequence of entries in which the
(case-folded when insensitive) query occurs in the content, the agent name
or a tag, each matching entry kept once in original order; and the three
search test vectors of the specification hold. -/
theorem search_memories_spec :
    (∀ (ms : List Entry) (cs : Bool), search_memories ms "" cs = ms) ∧
    (∀ (ms : List Entry) (query : String) (cs : Bool),
      search_memories ms query cs =
        ms.filter (fun e => entry_matches_query e query cs)) ∧
    (∀ (ms : List Entry) (query : String) (cs : Bool),
      (search_memories ms query cs).Sublist ms) ∧
    search_memories [exSearchE] "test" false = [exSearchE] ∧
    search_memories [exSearchE] "test" true = [] ∧
    search_memories [exSearchE] "TEST" true = [exSearchE] := by
  have hfilter : ∀ (ms : List Entry) (query : String) (cs : Bool),
      search_memories ms query cs =
        ms.filter (fun e => entry_matches_query e query cs) := by
    intro ms query cs
    by_cases hq : query = ""
    · subst hq
      have : ∀ e : Entry, entry_matches_query e "" cs = true := by
        intro e
        cases cs <;>
          simp [entry_matches_query, entry_matches, lowerStr, strContains_empty]
      simp [search_memories, List.filter_eq_self.mpr fun e _ => this e]
    · simp only [search_memories, if_neg hq]
      exact searchLoop_eq_filter _ cs ms
  refine ⟨fun ms cs => by simp [search_memories], hfilter, ?_, by decide, by decide, by decide⟩
  intro ms query cs
  rw [hfilter]
  exact List.filter_sublist ms

/-- Folding the recovery step from an arbitrary accumulator: a later usable
snapshot overrides it, otherwise the accumulator survives. -/
theorem newest_valid_snapshot_foldl (bs : List (Option JsonValue))
    (a : Option (List Entry)) :
    bs.foldl
        (fun acc b =>
          match snapshot_entries b with
          | some es => some es
          | none => acc)
        a =
      match newest_valid_snapshot bs with
      | some es => some es
      | none => a := by
  induction bs generalizing a with
  | nil => simp [newest_valid_snapshot]
  | cons b rest ih =>
    simp only [newest_valid_snapshot, List.foldl_cons]
    rw [ih, ih (match snapshot_entries b with | some es => some es | none => none)]
    cases hrest : newest_valid_snapshot rest
    · cases hb : snapshot_entries b <;> simp
    · simp

/-- Scanning a concatenation: the left part wins when it yields entries. -/
theorem recoverScan_append (l1 l2 : List (Option JsonValue)) :
    recoverScan (l1 ++ l2) =
      match recoverScan l1 with
      | some es => some es
      | none => recoverScan l2 := by
  induction l1 with
  | nil => simp [recoverScan]
  | cons b rest ih =>
    simp only [List.cons_append, recoverScan]
    cases snapshot_entries b <;> simp [ih]

/-- Unfolding one step of the newest-usable-snapshot fold. -/
theorem newest_valid_snapshot_cons (b : Option JsonValue)
    (rest : List (Option JsonValue)) :
    newest_valid_snapshot (b :: rest) =
      match newest_valid_snapshot rest with
      | some es => some es
      | none =>
        match snapshot_entries b with
        | some es => some es
        | none => none := by
  exact newest_valid_snapshot_foldl rest
    (match snapshot_entries b with
     | some es => some es
     | none => none)

/-- The newest-to-oldest scan of `recover_from_backup` returns exactly the
newest snapshot that yields entries. -/
theorem recover_from_backup_eq_newest (backups : List (Option JsonValue)) :
    recover_from_backup backups = newest_valid_snapshot backups := by
  unfold recover_from_backup
  induction backups with
  | nil => rfl
  | cons b rest ih =>
    rw [List.reverse_cons, recoverScan_append, ih, newest_valid_snapshot_cons]
    cases hrest : newest_valid_snapshot rest
    · cases hb : snapshot_entries b <;> simp [recoverScan, hb]
    · simp

/-- When no snapshot yields entries the recovery scan comes back empty. -/
theorem newest_valid_snapshot_none (backups : List (Option JsonValue))
    (h : ∀ b ∈ backups, snapshot_entries b = none) :
    newest_valid_snapshot backups = none := by
  induction backups with
  | nil => rfl
  | cons b rest ih =>
    simp only [newest_valid_snapshot, List.foldl_cons]
    rw [newest_valid_snapshot_foldl]
    rw [h b (by simp)]
    rw [ih (fun x hx => h x (by simp [hx]))]

/-- C1: `load_memories` returns the empty sequence on empty content, the
parsed list itself on a bare JSON list, the `entries` field on a versioned
dictionary (empty when the field is absent), and on malformed content the
entries of the newest retained snapshot that yields entries — scanning
newest to oldest — or the empty sequence when no snapshot does. -/
theorem load_memories_spec :
    (∀ backups, load_memories .empty backups = []) ∧
    (∀ es backups, load_memories (.parsed (.list es)) backups = es) ∧
    (∀ es backups, load_memories (.parsed (.dict (some es))) backups = es) ∧
    (∀ backups, load_memories (.parsed (.dict none)) backups = []) ∧
    (∀ backups, load_memories .malformed backups =
      (newest_valid_snapshot backups).getD []) ∧
    (∀ backups, (∀ b ∈ backups, snapshot_entries b = none) →
      load_memories .malformed backups = []) := by
  have h5 : ∀ backups, load_memories .malformed backups =
      (newest_valid_snapshot backups).getD [] := by
    intro backups
    simp only [load_memories, recover_from_backup_eq_newest]
    cases newest_valid_snapshot backups <;> simp
  refine ⟨fun _ => rfl, fun _ _ => rfl, fun _ _ => rfl, fun _ => rfl, h5, ?_⟩
  intro backups h
  rw [h5, newest_valid_snapshot_none backups h]
  rfl

/-- Witness for C1: a concrete recovery from the newest usable snapshot, and
a concrete malformed load with no usable snapshot. -/
theorem load_memories_witness :
    load_memories .malformed exGoodBackups = [exMedE] ∧
    load_memories .malformed exBadBackups = [] := by
  constructor
  · rw [load_memories_spec.2.2.2.2.1 exGoodBackups]
    decide
  · exact load_memories_spec.2.2.2.2.2 exBadBackups (by decide)

/-- The temporary sibling path always differs from the target. -/
theorem tmp_path_ne (p : FPath) : tmp_path p ≠ p := by
  intro h
  have hn : "." ++ p.name ++ ".tmp" = p.name := congrArg FPath.name h
  have hl := congrArg String.length hn
  rw [String.length_append, String.length_append] at hl
  have h1 : (".").length = 1 := rfl
  have h4 : (".tmp").length = 4 := rfl
  omega

/-- The cleanup handler leaves no temporary file behind. -/
theorem atomic_write_cleanup_tmp (st : FS) (target : FPath) :
    (atomic_write_cleanup st target).files (tmp_path target) = none := by
  unfold atomic_write_cleanup
  cases h : st.files (tmp_path target) <;> simp [h, FS.remove]

/-- The cleanup handler does not touch the target. -/
theorem atomic_write_cleanup_target (st : FS) (target : FPath) :
    (atomic_write_cleanup st target).files target = st.files target := by
  have hne : target ≠ tmp_path target := fun he => tmp_path_ne target (Eq.symm he)
  unfold atomic_write_cleanup
  cases h : st.files (tmp_path target) <;> simp [h, FS.remove, hne]

/-- Writing to the temporary sibling does not touch the target. -/
theorem fs_set_tmp_target (fs : FS) (target : FPath) (v : String) :
    (fs.set (tmp_path target) v).files target = fs.files target := by
  have hne : target ≠ tmp_path target := fun he => tmp_path_ne target (Eq.symm he)
  simp [FS.set, hne]

/-- C9: when the atomic write fails at any point before the final rename,
the temporary sibling file is removed and the target file's content is left
untouched; and a fault-free run leaves the full content — never a partial
write — at the target. -/
theorem atomic_write_safety_spec (fs : FS) (target : FPath) (content : String)
    (fl : AWFail) :
    (fl ≠ .atRename →
      (atomic_write_fs fs target content (some fl)).files target = fs.files target ∧
      (atomic_write_fs fs target content (some fl)).files (tmp_path target) = none) ∧
    (atomic_write_fs fs target content none).files target = some content := by
  constructor
  · intro hfl
    cases fl with
    | beforeOpen =>
      exact ⟨atomic_write_cleanup_target fs target, atomic_write_cleanup_tmp fs target⟩
    | duringWrite written =>
      refine ⟨?_, atomic_write_cleanup_tmp _ target⟩
      rw [show atomic_write_fs fs target content (some (.duringWrite written)) =
        atomic_write_cleanup ((fs.set (tmp_path target) "").set (tmp_path target) written)
          target from rfl]
      rw [atomic_write_cleanup_target, fs_set_tmp_target, fs_set_tmp_target]
    | duringFsync =>
      refine ⟨?_, atomic_write_cleanup_tmp _ target⟩
      rw [show atomic_write_fs fs target content (some .duringFsync) =
        atomic_write_cleanup ((fs.set (tmp_path target) "").set (tmp_path target) content)
          target from rfl]
      rw [atomic_write_cleanup_target, fs_set_tmp_target, fs_set_tmp_target]
    | atRename => exact absurd rfl hfl
  · have hne : target ≠ tmp_path target := fun he => tmp_path_ne target (Eq.symm he)
    show (((((fs.set (tmp_path target) "").set (tmp_path target) content).set
      target content).remove (tmp_path target)).files target) = some content
    simp [FS.remove, FS.set, hne]

/-- Witness for C9 at a concrete filesystem, target and failure point. -/
theorem atomic_write_safety_witness :
    AWFail.beforeOpen ≠ AWFail.atRename ∧
    (atomic_write_fs exFS exTarget "data" (some .beforeOpen)).files exTarget =
      exFS.files exTarget ∧
    (atomic_write_fs exFS exTarget "data" (some .beforeOpen)).files (tmp_path exTarget) =
      none := by
  have h := (atomic_write_safety_spec exFS exTarget "data" .beforeOpen).1 (by decide)
  exact ⟨by decide, h.1, h.2⟩

/-- A found entry belongs to the list and carries the searched id. -/
theorem find_entry_by_id_mem (ms : List Entry) (eid : String) (e : Entry)
    (h : find_entry_by_id ms eid = some e) : e ∈ ms ∧ e.entry_id = eid := by
  induction ms with
  | nil => cases h
  | cons x rest ih =>
    by_cases hx : (x.entry_id == eid) = true
    · rw [find_entry_by_id, if_pos hx] at h
      injection h with hxe
      subst hxe
      exact ⟨List.mem_cons_self _ _, by simpa using hx⟩
    · rw [find_entry_by_id, if_neg hx] at h
      obtain ⟨hm, hi⟩ := ih h
      exact ⟨List.mem_cons_of_mem x hm, hi⟩

/-- When no entry carries the id, the lookup fails. -/
theorem find_entry_by_id_none (ms : List Entry) (eid : String)
    (h : ∀ x ∈ ms, x.entry_id ≠ eid) : find_entry_by_id ms eid = none := by
  induction ms with
  | nil => rfl
  | cons x rest ih =>
    have hx : (x.entry_id == eid) = false := by
      simpa using h x (List.mem_cons_self x rest)
    rw [find_entry_by_id, if_neg (by simp [hx])]
    exact ih fun y hy => h y (List.mem_cons_of_mem x hy)

/-- Dropping the unique entry carrying an id shrinks the list by exactly one. -/
theorem filter_ne_id_length (ms : List Entry) (eid : String) (e : Entry)
    (huniq : ms.Pairwise (fun a b => a.entry_id ≠ b.entry_id))
    (hmem : e ∈ ms) (heid : e.entry_id = eid) :
    (ms.filter (fun m => m.entry_id != eid)).length + 1 = ms.length := by
  induction ms with
  | nil => cases hmem
  | cons x rest ih =>
    cases huniq with
    | cons h1 h2 =>
      rcases List.mem_cons.mp hmem with rfl | hmem2
      · have hall : ∀ y ∈ rest, (y.entry_id != eid) = true := by
          intro y hy
          have := h1 y hy
          simp [← heid]
          exact fun hc => this hc.symm
        rw [List.filter_cons]
        have hx : (e.entry_id != eid) = false := by simp [heid]
        rw [hx]
        simp only [List.filter_eq_self.mpr hall, Bool.false_eq_true, if_false]
        simp
      · have hx : (x.entry_id != eid) = true := by
          have := h1 e hmem2
          rw [heid] at this
          simp [this]
        rw [List.filter_cons, hx]
        simp only [if_true]
        rw [List.length_cons, List.length_cons, ih h2 hmem2]

/-- C5: on a store within capacity whose entry ids are pairwise distinct, if
an entry with the given (UUID-formatted) id is present, then deleting that id
succeeds, a subsequent get of the id reports not-found, the entry count drops
by exactly one, and the surviving entries are precisely the other original
entries in their original order. -/
theorem delete_memory_spec (memories : List Entry) (eid : String) (e : Entry)
    (hcap : memories.length ≤ MAX_ENTRIES)
    (huniq : memories.Pairwise (fun a b => a.entry_id ≠ b.entry_id))
    (hfind : find_entry_by_id memories eid = some e)
    (hid : validate_entry_id eid = true) :
    ∃ ms' : List Entry,
      delete_memory memories eid = .ok (ms', e) ∧
      get_memory ms' eid = .error .notFound ∧
      ms'.length + 1 = memories.length ∧
      ms'.Sublist memories ∧
      (∀ x ∈ memories, x.entry_id ≠ eid → x ∈ ms') ∧
      (∀ x ∈ ms', x ∈ memories ∧ x.entry_id ≠ eid) := by
  obtain ⟨hmem, heid⟩ := find_entry_by_id_mem memories eid e hfind
  refine ⟨memories.filter (fun m => m.entry_id != eid), ?_, ?_, ?_, ?_, ?_, ?_⟩
  · have hlen : ¬ ((memories.filter (fun m => m.entry_id != eid)).length > MAX_ENTRIES) := by
      have := List.length_filter_le (fun m => m.entry_id != eid) memories
      omega
    unfold delete_memory
    rw [if_neg (by simp [hid]), hfind]
    show Except.ok (save_entries (memories.filter (fun m => m.entry_id != eid)), e) = _
    unfold save_entries
    rw [if_neg hlen]
  · have hnone : find_entry_by_id (memories.filter (fun m => m.entry_id != eid)) eid =
        none := by
      apply find_entry_by_id_none
      intro x hx
      have := (List.mem_filter.mp hx).2
      simpa using this
    unfold get_memory
    rw [if_neg (by simp [hid]), hnone]
  · exact filter_ne_id_length memories eid e huniq hmem heid
  · exact List.filter_sublist memories
  · intro x hx hne
    exact List.mem_filter.mpr ⟨hx, by simp [hne]⟩
  · intro x hx
    obtain ⟨h1, h2⟩ := List.mem_filter.mp hx
    exact ⟨h1, by simpa using h2⟩

/-- Witness for C5 at a concrete two-entry store and UUID ids. -/
theorem delete_memory_witness :
    ∃ ms' : List Entry,
      delete_memory [exDelE1, exDelE2] uuidA = .ok (ms', exDelE1) ∧
      get_memory ms' uuidA = .error .notFound ∧
      ms'.length + 1 = [exDelE1, exDelE2].length := by
  obtain ⟨ms', h1, h2, h3, _, _, _⟩ :=
    delete_memory_spec [exDelE1, exDelE2] uuidA exDelE1 (by decide) (by decide)
      (by decide) (by decide)
  exact ⟨ms', h1, h2, h3⟩

/-- Updating the first entry carrying the id rewrites exactly that position. -/
theorem update_first_append (pre post : List Entry) (e : Entry)
    (p : UpdateMemoryInput) (now : String)
    (hpre : ∀ x ∈ pre, x.entry_id ≠ p.entry_id) (he : e.entry_id = p.entry_id) :
    update_first (pre ++ e :: post) p.entry_id p now =
      some (pre ++ apply_update e p now :: post) := by
  induction pre with
  | nil =>
    have hcond : (e.entry_id == p.entry_id) = true := by simp [he]
    simp only [List.nil_append, update_first]
    rw [if_pos hcond]
  | cons x rest ih =>
    have hx : ¬ ((x.entry_id == p.entry_id) = true) := by
      simpa using hpre x (List.mem_cons_self x rest)
    simp only [List.cons_append, update_first]
    rw [if_neg hx]
    have := ih fun y hy => hpre y (List.mem_cons_of_mem x hy)
    simp only [List.append_eq] at this ⊢
    rw [this]
    rfl

/-- C8: on a store within capacity, an update that provides none of the
optional fields succeeds and only rewrites the target entry's `updated_at`:
the produced store is the original with that entry's `updated_at` set to
now, every other stored entry is syntactically unchanged, the reported
changed-field list is empty, and the rewritten entry agrees with the
original on id, timestamp, author, content, word count, tags, priority and
metadata. -/
theorem update_memory_noop_spec (pre post : List Entry) (e : Entry) (now : String)
    (hcap : (pre ++ e :: post).length ≤ MAX_ENTRIES)
    (hpre : ∀ x ∈ pre, x.entry_id ≠ e.entry_id)
    (hid : validate_entry_id e.entry_id = true) :
    update_memory (pre ++ e :: post) ⟨e.entry_id, none, none, none, none⟩ now =
      .ok (pre ++ { e with updated_at := some now } :: post, []) ∧
    ({ e with updated_at := some now }).entry_id = e.entry_id ∧
    ({ e with updated_at := some now }).timestamp = e.timestamp ∧
    ({ e with updated_at := some now }).agent_name = e.agent_name ∧
    ({ e with updated_at := some now }).content = e.content ∧
    ({ e with updated_at := some now }).word_count = e.word_count ∧
    ({ e with updated_at := some now }).tags = e.tags ∧
    ({ e with updated_at := some now }).priority = e.priority ∧
    ({ e with updated_at := some now }).metadata = e.metadata ∧
    ({ e with updated_at := some now }).updated_at = some now := by
  refine ⟨?_, rfl, rfl, rfl, rfl, rfl, rfl, rfl, rfl, rfl⟩
  unfold update_memory
  show (if validate_entry_id e.entry_id = false then Except.error UpdateError.invalidId
    else _) = _
  rw [if_neg (by simp [hid])]
  rw [update_first_append pre post e ⟨e.entry_id, none, none, none, none⟩ now hpre rfl]
  have happ : apply_update e ⟨e.entry_id, none, none, none, none⟩ now =
      { e with updated_at := some now } := rfl
  rw [happ]
  have hlen : ¬ ((pre ++ { e with updated_at := some now } :: post).length > MAX_ENTRIES) := by
    have h' : (pre ++ { e with updated_at := some now } :: post).length =
        (pre ++ e :: post).length := by simp
    omega
  show Except.ok (save_entries (pre ++ { e with updated_at := some now } :: post),
    updated_fields ⟨e.entry_id, none, none, none, none⟩) = _
  unfold save_entries
  rw [if_neg hlen]
  rfl

/-- Witness for C8 at a concrete two-entry store and UUID id. -/
theorem update_memory_noop_witness :
    update_memory [exDelE2, exDelE1] ⟨uuidA, none, none, none, none⟩ "t9" =
      .ok ([exDelE2, { exDelE1 with updated_at := some "t9" }], []) ∧
    ({ exDelE1 with updated_at := some "t9" }).content = exDelE1.content := by
  have h := update_memory_noop_spec [exDelE2] [] exDelE1 "t9" (by decide)
    (by decide) (by decide)
  exact ⟨h.1, h.2.2.2.2.1⟩

/-- A list of whitespace characters contains no words. -/
theorem countWordsAux_all_space (l : List Char) (b : Bool)
    (h : ∀ c ∈ l, pyIsSpace c = true) : countWordsAux l b = 0 := by
  induction l generalizing b with
  | nil => rfl
  | cons c cs ih =>
    have hc := h c (List.mem_cons_self c cs)
    simp only [countWordsAux, hc, if_true]
    exact ih false fun d hd => h d (List.mem_cons_of_mem c hd)

/-- Appending trailing whitespace does not change the word count. -/
theorem countWordsAux_append_space (l t : List Char) (b : Bool)
    (h : ∀ c ∈ t, pyIsSpace c = true) :
    countWordsAux (l ++ t) b = countWordsAux l b := by
  induction l generalizing b with
  | nil =>
    rw [List.nil_append, countWordsAux_all_space t b h]
    rfl
  | cons c cs ih =>
    by_cases hc : pyIsSpace c = true <;>
      simp [countWordsAux, hc, ih]

/-- Dropping leading whitespace does not change the word count. -/
theorem countWordsAux_dropWhile (l : List Char) :
    countWordsAux (l.dropWhile pyIsSpace) false = countWordsAux l false := by
  induction l with
  | nil => rfl
  | cons c cs ih =>
    by_cases hc : pyIsSpace c = true
    · rw [List.dropWhile_cons]
      simp only [hc, if_true]
      rw [ih]
      simp [countWordsAux, hc]
    · rw [List.dropWhile_cons]
      simp [hc]

/-- Stripping surrounding whitespace preserves the whitespace-token count:
`len(text.strip().split()) = len(text.split())`. -/
theorem count_words_strip (s : String) : count_words (pyStrip s) = count_words s := by
  show countWordsAux (pyStripList s.data) false = countWordsAux s.data false
  unfold pyStripList
  have hsplit : s.data.dropWhile pyIsSpace =
      ((s.data.dropWhile pyIsSpace).reverse.dropWhile pyIsSpace).reverse ++
        ((s.data.dropWhile pyIsSpace).reverse.takeWhile pyIsSpace).reverse := by
    conv_lhs => rw [← List.reverse_reverse (s.data.dropWhile pyIsSpace),
      ← List.takeWhile_append_dropWhile pyIsSpace (s.data.dropWhile pyIsSpace).reverse]
    rw [List.reverse_append]
  have htail : ∀ c ∈ ((s.data.dropWhile pyIsSpace).reverse.takeWhile pyIsSpace).reverse,
      pyIsSpace c = true := by
    intro c hc
    exact List.mem_takeWhile_imp (List.mem_reverse.mp hc)
  calc countWordsAux ((s.data.dropWhile pyIsSpace).reverse.dropWhile pyIsSpace).reverse
        false
      = countWordsAux
          (((s.data.dropWhile pyIsSpace).reverse.dropWhile pyIsSpace).reverse ++
            ((s.data.dropWhile pyIsSpace).reverse.takeWhile pyIsSpace).reverse) false := by
        rw [countWordsAux_append_space _ _ false htail]
    _ = countWordsAux (s.data.dropWhile pyIsSpace) false := by rw [← hsplit]
    _ = countWordsAux s.data false := countWordsAux_dropWhile s.data

/-- A string of length zero is the empty string. -/
theorem string_eq_empty_of_length_zero (s : String) (h : s.length = 0) : s = "" := by
  cases s with
  | mk data =>
    cases data with
    | nil => rfl
    | cons c cs => simp [String.length] at h

/-- Counterexample to C3 as frozen: the empty content has whitespace-token
count 0, which is at most 200, yet add is rejected — the pydantic
`min_length=1` constraint on the stripped content fires — so "count at most
200 implies add succeeds" is false. -/
theorem add_memory_counterexample :
    count_words "" = 0 ∧ count_words "" ≤ 200 ∧
    add_memory [] exAddEmpty "t" "id0" = .error .contentLength := by
  refine ⟨rfl, by decide, rfl⟩

/-- C3 (amended): for an add request whose other inputs are valid (trimmed
author of 1 to 100 characters, at most 10 tags): when the content's
whitespace-token count is at most 200 and the trimmed content is non-empty,
add succeeds and the stored entry's `word_count` equals the whitespace-token
count of the content; when the count exceeds 200, add is rejected with the
word-count validation error and the store is untouched. -/
theorem add_memory_word_count_spec (memories : List Entry) (p : AddMemoryInput)
    (now eid : String)
    (hagent1 : 1 ≤ (pyStrip p.agent_name).length)
    (hagent2 : (pyStrip p.agent_name).length ≤ 100)
    (htags : p.tags.length ≤ 10) :
    (count_words p.content ≤ MAX_WORDS_PER_ENTRY → pyStrip p.content ≠ "" →
      add_memory memories p now eid =
        .ok (save_entries (memories ++
          [make_entry ⟨pyStrip p.agent_name, pyStrip p.content, normalize_tags p.tags,
            p.priority, p.metadata⟩ now eid])) ∧
      (make_entry ⟨pyStrip p.agent_name, pyStrip p.content, normalize_tags p.tags,
        p.priority, p.metadata⟩ now eid).word_count = count_words p.content) ∧
    (count_words p.content > MAX_WORDS_PER_ENTRY →
      add_memory memories p now eid = .error .wordCount) := by
  have hagent : ¬ ((pyStrip p.agent_name).length < 1 ∨ (pyStrip p.agent_name).length > 100) := by
    omega
  constructor
  · intro hwc hne
    have hclen : ¬ ((pyStrip p.content).length < 1) := by
      intro hlt
      exact hne (string_eq_empty_of_length_zero _ (by omega))
    have hwc' : ¬ (count_words (pyStrip p.content) > MAX_WORDS_PER_ENTRY) := by
      rw [count_words_strip]
      omega
    constructor
    · unfold add_memory validate_add_input
      rw [if_neg hagent, if_neg hclen, if_neg hwc', if_neg (by omega)]
    · show count_words (pyStrip p.content) = count_words p.content
      exact count_words_strip p.content
  · intro hwc
    have hcw0 : count_words (pyStrip p.content) > MAX_WORDS_PER_ENTRY := by
      rw [count_words_strip]
      omega
    have hclen : ¬ ((pyStrip p.content).length < 1) := by
      intro hlt
      have he : pyStrip p.content = "" := string_eq_empty_of_length_zero _ (by omega)
      rw [he] at hcw0
      have : count_words "" = 0 := rfl
      omega
    unfold add_memory validate_add_input
    rw [if_neg hagent, if_neg hclen, if_pos hcw0]

/-- Witness for C3 (amended) at a concrete valid add request. -/
theorem add_memory_word_count_witness :
    add_memory [] exAddOk "t0" "id0" =
      .ok (save_entries ([] ++
        [make_entry ⟨pyStrip exAddOk.agent_name, pyStrip exAddOk.content,
          normalize_tags exAddOk.tags, exAddOk.priority, exAddOk.metadata⟩ "t0" "id0"])) ∧
    (make_entry ⟨pyStrip exAddOk.agent_name, pyStrip exAddOk.content,
      normalize_tags exAddOk.tags, exAddOk.priority, exAddOk.metadata⟩
        "t0" "id0").word_count = count_words exAddOk.content :=
  (add_memory_word_count_spec [] exAddOk "t0" "id0" (by decide) (by decide)
    (by decide)).1 (by decide) (by decide)

/-- The oversized content string has 13000 characters. -/
theorem bigA_len : bigA.length = 13000 := by
  show (List.replicate 13000 'a').length = 13000
  rw [List.length_replicate]

/-- The read pipeline of the concrete store keeps exactly the two agent-A
entries: the agent filter removes the third entry, chronological sort is the
identity and no limit applies. -/
theorem exC4_process : process_read_entries exC4Store exC4Params = [exC4E1, exC4E2] := by
  simp only [process_read_entries, exC4Params, exC4Store, filter_memories, sort_memories]
  norm_num [exC4E1, exC4E2, exC4E3, List.filter]
  rw [if_neg (by decide)]
  norm_num
  rw [show ("B" == "A") = false from by decide]

/-- The markdown rendering of the two oversized entries exceeds the
character budget. -/
theorem exC4_format_len :
    (format_memories_as_markdown [exC4E1, exC4E2]).length > CHARACTER_LIMIT := by
  show (format_memories_as_markdown [exC4E1, exC4E2]).length > 25000
  simp only [format_memories_as_markdown, entries_md_lines, entry_md_lines, exC4E1, exC4E2,
    List.isEmpty_cons, Bool.false_eq_true, if_false, Option.getD_some, List.isEmpty_nil,
    if_true, List.length_cons, List.length_nil, List.cons_append, List.nil_append,
    List.append_nil, join_nl, String.length_append, bigA_len]
  decide

/-- When the first rendering overflows the budget, `read_memory` halves the
entry count, keeps the trailing half, renders once more and appends the
notice built from the halved count and the pre-filter store size. -/
theorem read_memory_truncation_eq (fmt : List Entry → String) (store : List Entry)
    (p : ReadMemoryInput)
    (h : (fmt (process_read_entries store p)).length > CHARACTER_LIMIT) :
    read_memory fmt store p =
      { output := fmt (py_slice_last ((process_read_entries store p).length / 2)
            (process_read_entries store p)) ++
          truncation_notice ((process_read_entries store p).length / 2) store.length
        notice := some ((process_read_entries store p).length / 2, store.length) } := by
  simp only [read_memory]
  rw [if_pos h]

/-- Counterexample to C4 as frozen: on the three-entry store with an agent
filter matching two entries, truncation fires and the notice reports the
pre-filter total 3, not the number 2 of entries matching the request. -/
theorem read_memory_truncation_counterexample :
    (read_memory format_memories_as_markdown exC4Store exC4Params).notice =
      some (1, 3) ∧
    (filter_memories exC4Store (some "A") none none none none).length = 2 ∧
    (3 : Nat) ≠ 2 := by
  have h : (format_memories_as_markdown
      (process_read_entries exC4Store exC4Params)).length > CHARACTER_LIMIT := by
    rw [exC4_process]
    exact exC4_format_len
  have heq := read_memory_truncation_eq format_memories_as_markdown exC4Store exC4Params h
  refine ⟨?_, ?_, by decide⟩
  · rw [heq, exC4_process]
    rfl
  · rw [show filter_memories exC4Store (some "A") none none none none =
        [exC4E1, exC4E2] from ?_]
    · rfl
    · simp only [exC4Store, filter_memories]
      norm_num [exC4E1, exC4E2, exC4E3, List.filter]
      rw [if_neg (by decide)]
      norm_num
      rw [show ("B" == "A") = false from by decide]

/-- C4 (amended): whenever the rendered response of the processed entries
exceeds the 25000-character budget, `read_memory` halves the entry count
(keeping the trailing half of the processed sequence), re-renders exactly
once, and appends a truncation notice stating the halved count versus the
total number of entries loaded from the store before filtering. -/
theorem read_memory_truncation_spec (fmt : List Entry → String) (store : List Entry)
    (p : ReadMemoryInput)
    (h : (fmt (process_read_entries store p)).length > CHARACTER_LIMIT) :
    read_memory fmt store p =
      { output := fmt (py_slice_last ((process_read_entries store p).length / 2)
            (process_read_entries store p)) ++
          truncation_notice ((process_read_entries store p).length / 2) store.length
        notice := some ((process_read_entries store p).length / 2, store.length) } ∧
    (read_memory fmt store p).notice =
      some ((process_read_entries store p).length / 2, store.length) := by
  have heq := read_memory_truncation_eq fmt store p h
  exact ⟨heq, by rw [heq]⟩

/-- Witness for C4 (amended) at the concrete store and read request. -/
theorem read_memory_truncation_witness :
    (format_memories_as_markdown (process_read_entries exC4Store exC4Params)).length >
      CHARACTER_LIMIT ∧
    (read_memory format_memories_as_markdown exC4Store exC4Params).notice =
      some ((process_read_entries exC4Store exC4Params).length / 2, exC4Store.length) := by
  have h : (format_memories_as_markdown
      (process_read_entries exC4Store exC4Params)).length > CHARACTER_LIMIT := by
    rw [exC4_process]
    exact exC4_format_len
  exact ⟨h,
    (read_memory_truncation_spec format_memories_as_markdown exC4Store exC4Params h).2⟩
